import Mathlib

/-!
Verification of the append-only Merkle tree core
(`common/append_merkle/src/merkle_tree.rs`): the `OptionalHash` hash
element and its fixed 33-byte SSZ codec, the `HashElement` /
`Algorithm` capability sets, the `MerkleTreeRead` proof-generation
algorithms (`gen_proof`, `gen_range_proof`) and the
`MerkleTreeInitialData` reconstruction model.

Bytes are modelled as `Nat`, byte strings as `List Nat`, and `H256` as a
list of exactly 32 bytes.  Machine-integer overflow is irrelevant here:
all source arithmetic on indices is guarded subtraction/shift on `usize`
within bounds.
-/

namespace AppendMerkle

/-- A 32-byte digest, mirroring `ethereum_types::H256`. -/
abbrev H256 := { l : List Nat // l.length = 32 }

/-- `H256::zero()`: the all-zero digest. -/
def H256.zero : H256 := ⟨List.replicate 32 0, by simp⟩

/-- Errors of the SSZ decoder (`ssz::DecodeError`); `BytesInvalid`
carries the message string, as in the source. -/
inductive DecodeError
  | InvalidByteLength (len : Nat) (expected : Nat)
  | BytesInvalid (msg : String)
deriving DecidableEq

/-- The external fixed-length SSZ decode of `H256` (32 bytes, identity on
the digest bytes), the behaviour `OptionalHash::from_ssz_bytes` relies on
for `bytes[1..]`. -/
def H256.from_ssz_bytes (bytes : List Nat) : Except DecodeError H256 :=
  if h : bytes.length = 32 then .ok ⟨bytes, h⟩
  else .error (.InvalidByteLength bytes.length 32)

/-- `H256::ssz_append`: appends the 32 digest bytes. -/
def H256.ssz_append (h : H256) : List Nat := h.val

/-- `struct OptionalHash(pub Option<H256>)`. -/
abbrev OptionalHash := Option H256

/-- `OptionalHash::some`. -/
def OptionalHash.some (h : H256) : OptionalHash := Option.some h

/-- `OptionalHash::none`. -/
def OptionalHash.none : OptionalHash := Option.none

/-- `OptionalHash::is_some`. -/
def OptionalHash.is_some (x : OptionalHash) : Bool := Option.isSome x

/-- `OptionalHash::is_none`. -/
def OptionalHash.is_none (x : OptionalHash) : Bool := Option.isNone x

/-- `impl AsRef<[u8]> for OptionalHash`: the digest bytes when present,
32 zero bytes when absent. -/
def OptionalHash.as_ref (x : OptionalHash) : List Nat :=
  match x with
  | Option.some h => h.val
  | Option.none => List.replicate 32 0

/-- `impl AsMut<[u8]> for OptionalHash`: an absent value is first set to
`Some(H256::zero())`, then the (mutable) digest byte view is returned.
Modelled state-passing style: the pair is (value after the call, byte
view returned). -/
def OptionalHash.as_mut (x : OptionalHash) : OptionalHash × List Nat :=
  let x' : OptionalHash :=
    match x with
    | Option.none => Option.some H256.zero
    | Option.some h => Option.some h
  (x', match x' with
       | Option.some h => h.val
       | Option.none => [])

/-- `OptionalHash::ssz_append` (`impl Encode`): discriminant byte `1`
followed by the digest when present, `0` followed by 32 zero bytes when
absent. -/
def OptionalHash.ssz_append (x : OptionalHash) : List Nat :=
  match x with
  | Option.some h => 1 :: h.ssz_append
  | Option.none => 0 :: List.replicate 32 0

/-- `OptionalHash::from_ssz_bytes` (`impl Decode`): reject lengths ≠ 33,
dispatch on the discriminant byte `bytes[0]`. -/
def OptionalHash.from_ssz_bytes (bytes : List Nat) :
    Except DecodeError OptionalHash :=
  if bytes.length ≠ 33 then
    .error (.InvalidByteLength bytes.length 33)
  else
    match bytes with
    | [] => .error (.InvalidByteLength 0 33) -- unreachable: length = 33
    | b :: rest =>
      if b = 0 then .ok OptionalHash.none
      else if b = 1 then
        (H256.from_ssz_bytes rest).map OptionalHash.some
      else .error (.BytesInvalid "Invalid discriminant for OptionalHash")

/-- The `HashElement` capability set: padding value per height, the
distinguished unknown value, and the null test (whose source default is
equality with `null()`). -/
structure HashElement (E : Type) where
  end_pad : Nat → E
  null : E
  is_null : E → Bool

/-- Modelled from the spec: the Zero-Hash Table `ZERO_HASHES` is built
from the external hashing collaborator (`Sha3Algorithm`, outside the
specified file): index 0 is the hash of an all-zero leaf block, index
i+1 is `parent_raw` of two copies of index i.  The source stores the
first 64 entries of this sequence. -/
def ZERO_HASHES (leaf_zero : H256) (parent_raw : H256 → H256 → H256) :
    Nat → H256
  | 0 => leaf_zero
  | i + 1 =>
    parent_raw (ZERO_HASHES leaf_zero parent_raw i)
      (ZERO_HASHES leaf_zero parent_raw i)

/-- `impl HashElement for OptionalHash`: `end_pad` wraps the zero-hash
table entry, `null` is the absent value, `is_null` overrides the default
with `is_none`.  Parameterised by the external hash functions feeding
`ZERO_HASHES`. -/
def OptionalHash.hashElement (leaf_zero : H256)
    (parent_raw : H256 → H256 → H256) : HashElement OptionalHash where
  end_pad h := OptionalHash.some (ZERO_HASHES leaf_zero parent_raw h)
  null := OptionalHash.none
  is_null := OptionalHash.is_none

/-- `impl HashElement for H256` (backward compatibility): `null` is the
all-zero digest and `is_null` is the trait default, equality with
`null()`. -/
def H256.hashElement (leaf_zero : H256)
    (parent_raw : H256 → H256 → H256) : HashElement H256 where
  end_pad h := ZERO_HASHES leaf_zero parent_raw h
  null := H256.zero
  is_null e := decide (e = H256.zero)

/-- The `Algorithm<E>` trait: only `parent` (and `leaf`) are abstract;
`parent_single` is a provided default, below. -/
structure Algorithm (E : Type) where
  parent : E → E → E
  leaf : List Nat → E

/-- Default `Algorithm::parent_single`: pair the node with
`E::end_pad(height)`. -/
def Algorithm.parent_single {E : Type} (a : Algorithm E)
    (he : HashElement E) (r : E) (height : Nat) : E :=
  let right := he.end_pad height
  a.parent r right

/-- `MerkleTreeInitialData<E>`: reconstruction checkpoint data. -/
structure MerkleTreeInitialData (E : Type) where
  subtree_list : List (Nat × E)
  known_leaves : List (Nat × E)
  extra_mpt_nodes : List (Nat × Nat × E)

/-- `MerkleTreeInitialData::leaves()`: fold summing `1 << (depth - 1)`
over `subtree_list`. -/
def MerkleTreeInitialData.leaves {E : Type}
    (d : MerkleTreeInitialData E) : Nat :=
  d.subtree_list.foldl (fun acc p => acc + (1 <<< (p.1 - 1))) 0

/-- The typed failure outcomes of the tree-read operations; each
constructor corresponds to one `bail!` site in the source. -/
inductive TreeError
  | IndexOutOfBounds
  | NotReady
  | IncompleteData
  | InvalidRange
deriving DecidableEq

/-- `Proof<E>`: lemma (hash chain from leaf to root) plus path bits. -/
structure Proof (E : Type) where
  lemma_ : List E
  path : List Bool
deriving DecidableEq

/-- `RangeProof<E>`: a pair of single-leaf proofs. -/
structure RangeProof (E : Type) where
  left_proof : Proof E
  right_proof : Proof E
deriving DecidableEq

/-- Modelled from the spec: `Proof::new` (defined outside the specified
file) returns the completed `Proof { lemma, path }` (§4.2 step 7). -/
def Proof.new {E : Type} (lemma_ : List E) (path : List Bool) :
    Except TreeError (Proof E) :=
  .ok ⟨lemma_, path⟩

/-- The `MerkleTreeRead` capability set: node lookup, height, per-layer
length, padding lookup. -/
structure MerkleTreeRead (E : Type) where
  node : Nat → Nat → E
  height : Nat
  layer_len : Nat → Nat
  padding_node : Nat → E

/-- `MerkleTreeRead::leaves`. -/
def MerkleTreeRead.leaves {E : Type} (t : MerkleTreeRead E) : Nat :=
  t.layer_len 0

/-- `MerkleTreeRead::root`. -/
def MerkleTreeRead.root {E : Type} (t : MerkleTreeRead E) : E :=
  t.node (t.height - 1) 0

/-- The sibling pushed onto the lemma at one iteration of the
`gen_proof` loop: padding when the even node is last in its layer, the
right neighbour for an even index, the left neighbour for an odd one. -/
def MerkleTreeRead.sibling_at {E : Type} (t : MerkleTreeRead E)
    (height idx : Nat) : E :=
  if idx % 2 = 0 then
    if idx + 1 = t.layer_len height then t.padding_node height
    else t.node height (idx + 1)
  else t.node height (idx - 1)

/-- The `gen_proof` loop `for height in 0..(height-1)`, as a recursion
on the remaining iteration count: arguments are the current layer, the
remaining count and `index_in_layer`; returns the siblings pushed onto
the lemma and the path bits, in push order. -/
def MerkleTreeRead.proof_loop {E : Type} (t : MerkleTreeRead E) :
    Nat → Nat → Nat → List E × List Bool
  | _, 0, _ => ([], [])
  | h, c + 1, idx =>
    (t.sibling_at h idx :: (t.proof_loop (h + 1) c (idx / 2)).1,
     decide (idx % 2 = 0) :: (t.proof_loop (h + 1) c (idx / 2)).2)

/-- The full lemma built by `gen_proof` for a tree of height > 1: the
leaf, the loop siblings, then the root. -/
def MerkleTreeRead.proof_lemma {E : Type} (t : MerkleTreeRead E)
    (leaf_index : Nat) : List E :=
  (t.node 0 leaf_index :: (t.proof_loop 0 (t.height - 1) leaf_index).1)
    ++ [t.root]

/-- The path bits built by `gen_proof` for a tree of height > 1. -/
def MerkleTreeRead.proof_path {E : Type} (t : MerkleTreeRead E)
    (leaf_index : Nat) : List Bool :=
  (t.proof_loop 0 (t.height - 1) leaf_index).2

/-- `MerkleTreeRead::gen_proof`, with the hash-element capability passed
explicitly (the trait's `Self::E: HashElement` bound). -/
def MerkleTreeRead.gen_proof {E : Type} (t : MerkleTreeRead E)
    (he : HashElement E) (leaf_index : Nat) : Except TreeError (Proof E) :=
  if t.leaves ≤ leaf_index then .error .IndexOutOfBounds
  else if he.is_null (t.node 0 leaf_index) then .error .NotReady
  else if t.height = 1 then Proof.new [t.root, t.root] []
  else if (t.proof_lemma leaf_index).any he.is_null then
    .error .IncompleteData
  else Proof.new (t.proof_lemma leaf_index) (t.proof_path leaf_index)

/-- `MerkleTreeRead::gen_range_proof`. -/
def MerkleTreeRead.gen_range_proof {E : Type} (t : MerkleTreeRead E)
    (he : HashElement E) (start_index end_index : Nat) :
    Except TreeError (RangeProof E) :=
  if end_index ≤ start_index then .error .InvalidRange
  else
    match t.gen_proof he start_index with
    | .error err => .error err
    | .ok left_proof =>
      match t.gen_proof he (end_index - 1) with
      | .error err => .error err
      | .ok right_proof => .ok ⟨left_proof, right_proof⟩

/-! ## Concrete instances used to witness the generic tree theorems -/

/-- A small hash-element capability over `Option Nat`, used to
instantiate the generic theorems on concrete trees. -/
def he0 : HashElement (Option Nat) where
  end_pad _ := Option.some 0
  null := Option.none
  is_null := Option.isNone

/-- A single-layer tree of two leaves whose leaf 0 (hence the root) is
unknown while leaf 1 is known. -/
def t0 : MerkleTreeRead (Option Nat) where
  node l i := if l = 0 ∧ i = 1 then Option.some 5 else Option.none
  height := 1
  layer_len l := if l = 0 then 2 else 0
  padding_node _ := Option.some 0

/-- A fully-populated three-leaf tree of height 3 (layers of length 3,
2, 1). -/
def t2 : MerkleTreeRead (Option Nat) where
  node l i := Option.some (10 * l + i)
  height := 3
  layer_len l := if l = 0 then 3 else if l = 1 then 2 else 1
  padding_node h := Option.some (100 + h)

/-- Like `t2` but with the layer-1 node above leaves 0/1 unknown. -/
def t3 : MerkleTreeRead (Option Nat) where
  node l i := if l = 1 ∧ i = 0 then Option.none else Option.some (10 * l + i)
  height := 3
  layer_len l := if l = 0 then 3 else if l = 1 then 2 else 1
  padding_node h := Option.some (100 + h)

/-! ## Theorems about the hash element and codec -/

instance {ε α : Type _} [DecidableEq ε] [DecidableEq α] :
    DecidableEq (Except ε α) := fun a b =>
  match a, b with
  | .error x, .error y =>
    if h : x = y then .isTrue (by rw [h])
    else .isFalse (by simp [h])
  | .error _, .ok _ => .isFalse (by simp)
  | .ok _, .error _ => .isFalse (by simp)
  | .ok x, .ok y =>
    if h : x = y then .isTrue (by rw [h])
    else .isFalse (by simp [h])

lemma foldl_add_shift (l : List (Nat × α)) (acc : Nat) :
    l.foldl (fun acc p => acc + (1 <<< (p.1 - 1))) acc
      = acc + (l.map (fun p => 2 ^ (p.1 - 1))).sum := by
  induction l generalizing acc with
  | nil => simp
  | cons hd tl ih =>
    rw [List.foldl_cons, ih, List.map_cons, List.sum_cons, Nat.shiftLeft_eq]
    ring

/-- C6: `OptionalHash::from_ssz_bytes` rejects every input of length ≠ 33
with `InvalidByteLength`, rejects 33-byte inputs whose discriminant is
neither 0 nor 1 with the invalid-discriminant error, and on a 33-byte
input decodes discriminant 0 to the absent value and discriminant 1 to a
present value carrying bytes 1..=32. -/
theorem C6_from_ssz_bytes_characterization :
    (∀ bytes : List Nat, bytes.length ≠ 33 →
      OptionalHash.from_ssz_bytes bytes
        = .error (.InvalidByteLength bytes.length 33)) ∧
    (∀ (b : Nat) (rest : List Nat), rest.length = 32 → b ≠ 0 → b ≠ 1 →
      OptionalHash.from_ssz_bytes (b :: rest)
        = .error (.BytesInvalid "Invalid discriminant for OptionalHash")) ∧
    (∀ rest : List Nat, rest.length = 32 →
      OptionalHash.from_ssz_bytes (0 :: rest) = .ok OptionalHash.none) ∧
    (∀ (rest : List Nat) (h : rest.length = 32),
      OptionalHash.from_ssz_bytes (1 :: rest)
        = .ok (OptionalHash.some ⟨rest, h⟩)) := by
  refine ⟨fun bytes hlen => ?_, fun b rest hlen hb0 hb1 => ?_,
    fun rest hlen => ?_, fun rest hlen => ?_⟩
  · simp [OptionalHash.from_ssz_bytes, hlen]
  · simp [OptionalHash.from_ssz_bytes, hlen, hb0, hb1]
  · simp [OptionalHash.from_ssz_bytes, hlen]
  · simp [OptionalHash.from_ssz_bytes, H256.from_ssz_bytes, hlen, Except.map]

/-- C6 witness: concrete evaluations of each clause. -/
theorem C6_from_ssz_bytes_characterization_witness :
    OptionalHash.from_ssz_bytes [0, 1] = .error (.InvalidByteLength 2 33) ∧
    OptionalHash.from_ssz_bytes (7 :: List.replicate 32 0)
      = .error (.BytesInvalid "Invalid discriminant for OptionalHash") ∧
    OptionalHash.from_ssz_bytes (0 :: List.replicate 32 5)
      = .ok OptionalHash.none ∧
    OptionalHash.from_ssz_bytes (1 :: List.replicate 32 5)
      = .ok (OptionalHash.some ⟨List.replicate 32 5, by decide⟩) :=
  ⟨C6_from_ssz_bytes_characterization.1 [0, 1] (by decide),
   C6_from_ssz_bytes_characterization.2.1 7 (List.replicate 32 0)
     (by decide) (by decide) (by decide),
   C6_from_ssz_bytes_characterization.2.2.1 (List.replicate 32 5) (by decide),
   C6_from_ssz_bytes_characterization.2.2.2 (List.replicate 32 5) (by decide)⟩

/-- C2 counterexample: the 33-byte input with discriminant 0 and a
nonzero payload byte decodes successfully (to the absent value), but
re-encoding yields the canonical absent encoding, not the original
bytes. -/
theorem C2_round_trip_counterexample :
    (0 :: 1 :: List.replicate 31 0 : List Nat).length = 33 ∧
    OptionalHash.from_ssz_bytes (0 :: 1 :: List.replicate 31 0)
      = .ok OptionalHash.none ∧
    OptionalHash.ssz_append OptionalHash.none ≠ 0 :: 1 :: List.replicate 31 0 := by
  decide

/-- C2 amended: decode-then-encode reproduces the original 33 bytes for
every input with discriminant 1, and for the canonical absent encoding
(discriminant 0 followed by 32 zero bytes); encoding the absent value
produces discriminant 0 followed by 32 zero bytes. -/
theorem C2_round_trip_amended :
    (∀ rest : List Nat, rest.length = 32 →
      ∃ v, OptionalHash.from_ssz_bytes (1 :: rest) = .ok v ∧
        OptionalHash.ssz_append v = 1 :: rest) ∧
    (∃ v, OptionalHash.from_ssz_bytes (0 :: List.replicate 32 0) = .ok v ∧
      OptionalHash.ssz_append v = 0 :: List.replicate 32 0) ∧
    OptionalHash.ssz_append OptionalHash.none = 0 :: List.replicate 32 0 := by
  refine ⟨fun rest hlen => ⟨OptionalHash.some ⟨rest, hlen⟩, ?_, ?_⟩,
    ⟨OptionalHash.none, ?_, ?_⟩, ?_⟩
  · simp [OptionalHash.from_ssz_bytes, H256.from_ssz_bytes, hlen, Except.map]
  · simp [OptionalHash.ssz_append, OptionalHash.some, H256.ssz_append]
  · decide
  · decide
  · decide

/-- C2 amended witness: a concrete present-value round trip. -/
theorem C2_round_trip_amended_witness :
    ∃ v, OptionalHash.from_ssz_bytes (1 :: List.replicate 32 9) = .ok v ∧
      OptionalHash.ssz_append v = 1 :: List.replicate 32 9 :=
  C2_round_trip_amended.1 (List.replicate 32 9) (by decide)

/-- C7: the default `parent_single` equals `parent` applied to the node
and `end_pad(height)`, for every algorithm, hash element capability,
node and height. -/
theorem C7_parent_single_end_pad :
    ∀ (E : Type) (a : Algorithm E) (he : HashElement E) (x : E) (h : Nat),
      a.parent_single he x h = a.parent x (he.end_pad h) :=
  fun _ _ _ _ _ => rfl

/-- C8: `MerkleTreeInitialData::leaves()` is the sum of `2^(depth-1)`
over `subtree_list`. -/
theorem C8_initial_data_leaves :
    ∀ (E : Type) (d : MerkleTreeInitialData E),
      d.leaves = (d.subtree_list.map (fun p => 2 ^ (p.1 - 1))).sum := by
  intro E d
  simp [MerkleTreeInitialData.leaves, foldl_add_shift]

/-- C9: the backward-compatibility `H256` instance conflates absence
with the all-zero digest: its `null()` is `H256::zero()` and `is_null`
holds of the genuinely all-zero digest, while for `OptionalHash` the
absent value is distinct from (and not `is_null`-equivalent to) the
present zero digest. -/
theorem C9_h256_null_conflation :
    ∀ (leaf_zero : H256) (parent_raw : H256 → H256 → H256),
      (H256.hashElement leaf_zero parent_raw).null = H256.zero ∧
      (H256.hashElement leaf_zero parent_raw).is_null H256.zero = true ∧
      (OptionalHash.hashElement leaf_zero parent_raw).null
        = OptionalHash.none ∧
      (OptionalHash.hashElement leaf_zero parent_raw).is_null
        (OptionalHash.some H256.zero) = false ∧
      OptionalHash.none ≠ OptionalHash.some H256.zero := by
  intro lz pr
  refine ⟨rfl, by simp [H256.hashElement], rfl, rfl, by
    simp [OptionalHash.none, OptionalHash.some]⟩

/-! ## Helper lemmas for the proof-generation theorems -/

lemma proof_loop_length {E : Type} (t : MerkleTreeRead E) :
    ∀ c h idx, (t.proof_loop h c idx).1.length = c ∧
      (t.proof_loop h c idx).2.length = c := by
  intro c
  induction c with
  | zero => intro h idx; simp [MerkleTreeRead.proof_loop]
  | succ c ih =>
    intro h idx
    simp [MerkleTreeRead.proof_loop, (ih (h + 1) (idx / 2)).1,
      (ih (h + 1) (idx / 2)).2]

lemma proof_loop_get {E : Type} (t : MerkleTreeRead E)
    (c h idx k : Nat) (hk : k < c) :
    (t.proof_loop h c idx).1[k]?
        = Option.some (t.sibling_at (h + k) (idx / 2 ^ k)) ∧
    (t.proof_loop h c idx).2[k]?
        = Option.some (decide (idx / 2 ^ k % 2 = 0)) := by
  induction c generalizing h idx k with
  | zero => omega
  | succ c ih =>
    cases k with
    | zero => simp [MerkleTreeRead.proof_loop]
    | succ k =>
      have hdiv : idx / 2 ^ (k + 1) = idx / 2 / 2 ^ k := by
        rw [Nat.pow_succ', Nat.div_div_eq_div_mul]
      have hadd : h + 1 + k = h + (k + 1) := by omega
      have := ih (h + 1) (idx / 2) k (by omega)
      rw [hadd] at this
      simp only [MerkleTreeRead.proof_loop, List.getElem?_cons_succ, hdiv]
      exact this

lemma layer_len_pos {E : Type} (t : MerkleTreeRead E)
    (hcons : ∀ h, h + 1 < t.height →
      t.layer_len (h + 1) = (t.layer_len h + 1) / 2)
    (h0 : 1 ≤ t.layer_len 0) :
    ∀ h, h < t.height → 1 ≤ t.layer_len h := by
  intro h
  induction h with
  | zero => intro _; exact h0
  | succ h ih =>
    intro hh
    have := ih (by omega)
    rw [hcons h (by omega)]
    omega

lemma proof_loop_nonnull {E : Type} (he : HashElement E)
    (t : MerkleTreeRead E)
    (hcons : ∀ h, h + 1 < t.height →
      t.layer_len (h + 1) = (t.layer_len h + 1) / 2)
    (hfull : ∀ h, h < t.height → ∀ i, i < t.layer_len h →
      he.is_null (t.node h i) = false)
    (hpad : ∀ h, h + 1 < t.height → he.is_null (t.padding_node h) = false)
    (c h idx : Nat) (hc : h + c + 1 = t.height)
    (hidx : idx < t.layer_len h) :
    ∀ e ∈ (t.proof_loop h c idx).1, he.is_null e = false := by
  induction c generalizing h idx with
  | zero => simp [MerkleTreeRead.proof_loop]
  | succ c ih =>
    intro e hmem
    simp only [MerkleTreeRead.proof_loop, List.mem_cons] at hmem
    rcases hmem with rfl | hmem
    · by_cases hpar : idx % 2 = 0
      · by_cases hlast : idx + 1 = t.layer_len h
        · simpa [MerkleTreeRead.sibling_at, hpar, hlast] using
            hpad h (by omega)
        · simpa [MerkleTreeRead.sibling_at, hpar, hlast] using
            hfull h (by omega) (idx + 1) (by omega)
      · simpa [MerkleTreeRead.sibling_at, hpar] using
          hfull h (by omega) (idx - 1) (by omega)
    · refine ih (h + 1) (idx / 2) (by omega) ?_ e hmem
      rw [hcons h (by omega)]
      omega

lemma gen_proof_ne_invalid_range {E : Type} (t : MerkleTreeRead E)
    (he : HashElement E) (i : Nat) :
    t.gen_proof he i ≠ .error .InvalidRange := by
  unfold MerkleTreeRead.gen_proof
  split
  · simp
  · split
    · simp
    · split
      · simp [Proof.new]
      · split
        · simp
        · simp [Proof.new]

/-- C10: taking the mutable byte view of an `OptionalHash` leaves it
present (`is_null` is false afterwards, for any value); on the absent
value it sets the state to the present zero digest, while the immutable
byte view of the absent value is 32 zero bytes with no state change. -/
theorem C10_as_mut_makes_present :
    (∀ (x : OptionalHash) (lz : H256) (pr : H256 → H256 → H256),
      (OptionalHash.hashElement lz pr).is_null (OptionalHash.as_mut x).1
        = false) ∧
    (OptionalHash.as_mut OptionalHash.none).1 = OptionalHash.some H256.zero ∧
    (OptionalHash.as_mut OptionalHash.none).2 = H256.zero.val ∧
    OptionalHash.as_ref OptionalHash.none = List.replicate 32 0 := by
  refine ⟨fun x lz pr => ?_, rfl, rfl, rfl⟩
  cases x <;> rfl

/-- C1: on a fully populated tree (consistent layer lengths, every node
of every layer non-null, non-null padding) every in-bounds leaf index
admits a proof: `gen_proof(i)` succeeds, the lemma starts with
`node(0,i)`, ends with `root()`, and `lemma.len() == path.len() + 2`;
in the single-layer case the result is lemma `[root, root]` with empty
path. -/
theorem C1_gen_proof_round_trip {E : Type} (he : HashElement E)
    (t : MerkleTreeRead E)
    (hheight : 1 ≤ t.height)
    (hcons : ∀ h, h + 1 < t.height →
      t.layer_len (h + 1) = (t.layer_len h + 1) / 2)
    (hfull : ∀ h, h < t.height → ∀ i, i < t.layer_len h →
      he.is_null (t.node h i) = false)
    (hpad : ∀ h, h + 1 < t.height → he.is_null (t.padding_node h) = false)
    (i : Nat) (hi : i < t.leaves) :
    (t.height = 1 → t.gen_proof he i = .ok ⟨[t.root, t.root], []⟩) ∧
    (t.height ≠ 1 → ∃ p, t.gen_proof he i = .ok p ∧
      p.lemma_.head? = Option.some (t.node 0 i) ∧
      p.lemma_.getLast? = Option.some t.root ∧
      p.lemma_.length = p.path.length + 2) := by
  have hleaf : he.is_null (t.node 0 i) = false := hfull 0 (by omega) i hi
  have h0 : 1 ≤ t.layer_len 0 := by
    have := hi
    simp only [MerkleTreeRead.leaves] at this
    omega
  constructor
  · intro h1
    simp [MerkleTreeRead.gen_proof, Proof.new, h1, hleaf, Nat.not_le.mpr hi]
  · intro h1
    have hnonull : ∀ e ∈ t.proof_lemma i, he.is_null e = false := by
      intro e hmem
      rw [MerkleTreeRead.proof_lemma] at hmem
      simp only [List.mem_append, List.mem_cons, List.mem_singleton,
        List.not_mem_nil, or_false] at hmem
      rcases hmem with (rfl | hmem) | rfl
      · exact hleaf
      · exact proof_loop_nonnull he t hcons hfull hpad (t.height - 1) 0 i
          (by omega) hi e hmem
      · exact hfull (t.height - 1) (by omega) 0
          (layer_len_pos t hcons h0 (t.height - 1) (by omega))
    have hany : (t.proof_lemma i).any he.is_null = false := by
      rw [List.any_eq_false]
      intro x hx
      simp [hnonull x hx]
    refine ⟨⟨t.proof_lemma i, t.proof_path i⟩, ?_, ?_, ?_, ?_⟩
    · simp [MerkleTreeRead.gen_proof, Proof.new, h1, hleaf,
        Nat.not_le.mpr hi, hany]
    · simp [MerkleTreeRead.proof_lemma]
    · show ((t.node 0 i :: (t.proof_loop 0 (t.height - 1) i).1)
          ++ [t.root]).getLast? = Option.some t.root
      rw [List.getLast?_concat]
    · simp [MerkleTreeRead.proof_lemma, MerkleTreeRead.proof_path,
        (proof_loop_length t (t.height - 1) 0 i).1,
        (proof_loop_length t (t.height - 1) 0 i).2]

/-- C1 witness: the fully populated three-leaf tree `t2` at leaf 2. -/
theorem C1_gen_proof_round_trip_witness :
    ∃ p, t2.gen_proof he0 2 = .ok p ∧
      p.lemma_.head? = Option.some (t2.node 0 2) ∧
      p.lemma_.getLast? = Option.some t2.root ∧
      p.lemma_.length = p.path.length + 2 :=
  (C1_gen_proof_round_trip he0 t2 (by decide)
    (fun h hh => by
      have h3 : t2.height = 3 := rfl
      rw [h3] at hh
      have : h = 0 ∨ h = 1 := by omega
      rcases this with rfl | rfl <;> rfl)
    (fun _ _ _ _ => rfl)
    (fun _ _ => rfl)
    2 (by decide)).2 (by decide)

/-- C3 counterexample: a single-layer tree of two leaves with a null
leaf 0 (hence null root).  `gen_proof(1)` has an in-bounds, known leaf
but collects the null root into the lemma, and still returns the
`[root, root]` proof instead of failing with `IncompleteData`: the
claim's IncompleteData clause fails for `height() == 1`. -/
theorem C3_height_one_counterexample :
    1 < t0.leaves ∧
    he0.is_null (t0.node 0 1) = false ∧
    he0.is_null t0.root = true ∧
    t0.gen_proof he0 1 = .ok ⟨[t0.root, t0.root], []⟩ ∧
    t0.gen_proof he0 1 ≠ .error .IncompleteData := by
  decide

/-- C3 amended: `gen_proof` fails with `IndexOutOfBounds` exactly when
the index is out of bounds; with `NotReady` exactly when the index is in
bounds and the leaf is null (so the bounds check precedes the null
check); for a tree of height ≠ 1, with `IncompleteData` exactly when the
leaf is known but the collected lemma contains a null element; for
height 1 with a known leaf it returns the `[root, root]` self-proof
without any null check; and no other failure (in particular never
`InvalidRange`) is possible. -/
theorem C3_gen_proof_error_cases {E : Type} (he : HashElement E)
    (t : MerkleTreeRead E) (i : Nat) :
    (t.gen_proof he i = .error .IndexOutOfBounds ↔ t.leaves ≤ i) ∧
    (i < t.leaves → he.is_null (t.node 0 i) = true →
      t.gen_proof he i = .error .NotReady) ∧
    (t.gen_proof he i = .error .NotReady →
      i < t.leaves ∧ he.is_null (t.node 0 i) = true) ∧
    (i < t.leaves → he.is_null (t.node 0 i) = false → t.height ≠ 1 →
      (t.gen_proof he i = .error .IncompleteData ↔
        (t.proof_lemma i).any he.is_null = true)) ∧
    (i < t.leaves → he.is_null (t.node 0 i) = false → t.height = 1 →
      t.gen_proof he i = .ok ⟨[t.root, t.root], []⟩) ∧
    (∀ err, t.gen_proof he i = .error err → err ≠ .InvalidRange) := by
  by_cases hb : t.leaves ≤ i
  · have hg : t.gen_proof he i = .error .IndexOutOfBounds := by
      simp [MerkleTreeRead.gen_proof, hb]
    refine ⟨by simp [hg, hb], fun h1 _ => absurd hb (by omega),
      fun hnr => ?_, fun h1 _ _ => absurd hb (by omega),
      fun h1 _ _ => absurd hb (by omega), fun err herr => ?_⟩
    · rw [hg] at hnr
      simp at hnr
    · rw [hg] at herr
      injection herr with h
      rw [← h]
      simp
  · by_cases hn : he.is_null (t.node 0 i) = true
    · have hg : t.gen_proof he i = .error .NotReady := by
        simp [MerkleTreeRead.gen_proof, hb, hn]
      refine ⟨by simp [hg, hb], fun _ _ => hg, fun _ => ⟨by omega, hn⟩,
        fun _ hf _ => by rw [hf] at hn; exact absurd hn (by simp),
        fun _ hf _ => by rw [hf] at hn; exact absurd hn (by simp),
        fun err herr => ?_⟩
      rw [hg] at herr
      injection herr with h
      rw [← h]
      simp
    · have hnf : he.is_null (t.node 0 i) = false := by
        simpa using hn
      by_cases h1 : t.height = 1
      · have hg : t.gen_proof he i = .ok ⟨[t.root, t.root], []⟩ := by
          simp [MerkleTreeRead.gen_proof, Proof.new, hb, hnf, h1]
        refine ⟨by simp [hg, hb], fun _ htrue => by rw [hnf] at htrue; simp at htrue,
          fun hnr => by rw [hg] at hnr; simp at hnr,
          fun _ _ hne => absurd h1 hne, fun _ _ _ => hg,
          fun err herr => by rw [hg] at herr; simp at herr⟩
      · by_cases ha : (t.proof_lemma i).any he.is_null = true
        · have hg : t.gen_proof he i = .error .IncompleteData := by
            simp [MerkleTreeRead.gen_proof, hb, hnf, h1, ha]
          refine ⟨by simp [hg, hb], fun _ htrue => by rw [hnf] at htrue; simp at htrue,
            fun hnr => by rw [hg] at hnr; simp at hnr,
            fun _ _ _ => by simp [hg, ha], fun _ _ hone => absurd hone h1,
            fun err herr => ?_⟩
          rw [hg] at herr
          injection herr with h
          rw [← h]
          simp
        · have haf : (t.proof_lemma i).any he.is_null = false := by
            simpa using ha
          have hg : t.gen_proof he i
              = .ok ⟨t.proof_lemma i, t.proof_path i⟩ := by
            simp [MerkleTreeRead.gen_proof, Proof.new, hb, hnf, h1, haf]
          refine ⟨by simp [hg, hb], fun _ htrue => by rw [hnf] at htrue; simp at htrue,
            fun hnr => by rw [hg] at hnr; simp at hnr,
            fun _ _ _ => by simp [hg, haf], fun _ _ hone => absurd hone h1,
            fun err herr => by rw [hg] at herr; simp at herr⟩

/-- C3 witness: each outcome realised on a concrete tree. -/
theorem C3_gen_proof_error_cases_witness :
    t2.gen_proof he0 5 = .error .IndexOutOfBounds ∧
    t0.gen_proof he0 0 = .error .NotReady ∧
    t3.gen_proof he0 2 = .error .IncompleteData ∧
    t0.gen_proof he0 1 = .ok ⟨[t0.root, t0.root], []⟩ :=
  ⟨(C3_gen_proof_error_cases he0 t2 5).1.mpr (by decide),
   (C3_gen_proof_error_cases he0 t0 0).2.1 (by decide) (by decide),
   ((C3_gen_proof_error_cases he0 t3 2).2.2.2.1 (by decide) (by decide)
     (by decide)).mpr (by decide),
   (C3_gen_proof_error_cases he0 t0 1).2.2.2.2.1 (by decide) (by decide)
     (by decide)⟩

/-- C4: in the lemma and path that `gen_proof` builds for a tree of
height > 1 (the proof returned on success is exactly that lemma/path
pair), the sibling recorded at each layer `k` below the root follows the
parity rule on the current index `i / 2^k`: an even index that is last
in its layer contributes `padding_node(k)` with path bit `true`, an even
index with a right neighbour contributes `node(k, i/2^k + 1)` with bit
`true`, and an odd index contributes `node(k, i/2^k - 1)` with bit
`false`.  In particular, for an odd leaf count the last leaf's proof
uses `padding_node(0)` at layer 0. -/
theorem C4_sibling_rule {E : Type} (t : MerkleTreeRead E) (i : Nat) :
    (∀ (he : HashElement E) (p : Proof E), t.height ≠ 1 →
      t.gen_proof he i = .ok p →
      p.lemma_ = t.proof_lemma i ∧ p.path = t.proof_path i) ∧
    (∀ k, k + 1 < t.height →
      ((i / 2 ^ k % 2 = 0 → i / 2 ^ k + 1 = t.layer_len k →
        (t.proof_lemma i)[k + 1]? = Option.some (t.padding_node k) ∧
        (t.proof_path i)[k]? = Option.some true) ∧
      (i / 2 ^ k % 2 = 0 → i / 2 ^ k + 1 ≠ t.layer_len k →
        (t.proof_lemma i)[k + 1]?
          = Option.some (t.node k (i / 2 ^ k + 1)) ∧
        (t.proof_path i)[k]? = Option.some true) ∧
      (i / 2 ^ k % 2 = 1 →
        (t.proof_lemma i)[k + 1]?
          = Option.some (t.node k (i / 2 ^ k - 1)) ∧
        (t.proof_path i)[k]? = Option.some false))) ∧
    (t.layer_len 0 % 2 = 1 → 1 < t.height →
      (t.proof_lemma (t.layer_len 0 - 1))[1]?
        = Option.some (t.padding_node 0)) := by
  have hlem : ∀ (j k : Nat), k + 1 < t.height →
      (t.proof_lemma j)[k + 1]?
        = (t.proof_loop 0 (t.height - 1) j).1[k]? := by
    intro j k hk
    rw [MerkleTreeRead.proof_lemma]
    rw [List.getElem?_append_left (by
      simp [(proof_loop_length t (t.height - 1) 0 j).1]
      omega)]
    simp
  refine ⟨?_, ?_, ?_⟩
  · intro he p h1 hok
    rw [MerkleTreeRead.gen_proof] at hok
    by_cases hb : t.leaves ≤ i
    · rw [if_pos hb] at hok
      exact absurd hok (by simp)
    rw [if_neg hb] at hok
    by_cases hn : he.is_null (t.node 0 i) = true
    · rw [if_pos hn] at hok
      exact absurd hok (by simp)
    rw [if_neg hn, if_neg h1] at hok
    by_cases ha : (t.proof_lemma i).any he.is_null = true
    · rw [if_pos ha] at hok
      exact absurd hok (by simp)
    rw [if_neg ha, Proof.new] at hok
    injection hok with h
    rw [← h]
    exact ⟨rfl, rfl⟩
  · intro k hk
    have hget := proof_loop_get t (t.height - 1) 0 i k (by omega)
    rw [Nat.zero_add] at hget
    have hl := (hlem i k hk).trans hget.1
    have hp : (t.proof_path i)[k]?
        = Option.some (decide (i / 2 ^ k % 2 = 0)) := hget.2
    refine ⟨fun hpar hlast => ?_, fun hpar hlast => ?_, fun hodd => ?_⟩
    · rw [hl, hp]
      simp [MerkleTreeRead.sibling_at, hpar, hlast]
    · rw [hl, hp]
      simp [MerkleTreeRead.sibling_at, hpar, hlast]
    · have hpar : ¬ (i / 2 ^ k % 2 = 0) := by omega
      rw [hl, hp]
      simp [MerkleTreeRead.sibling_at, hpar]
  · intro hodd hh
    have hget := proof_loop_get t (t.height - 1) 0 (t.layer_len 0 - 1) 0
      (by omega)
    rw [Nat.zero_add] at hget
    have hl := (hlem (t.layer_len 0 - 1) 0 (by omega)).trans hget.1
    rw [hl]
    have hpar : (t.layer_len 0 - 1) / 2 ^ 0 % 2 = 0 := by
      simp
      omega
    have hlast : (t.layer_len 0 - 1) / 2 ^ 0 + 1 = t.layer_len 0 := by
      simp
      omega
    simp only [pow_zero, Nat.div_one] at hpar hlast ⊢
    simp [MerkleTreeRead.sibling_at, hpar, hlast]

/-- C4 witness: the three-leaf tree `t2`, leaf 2: padding sibling with
bit `true` at layer 0, left sibling with bit `false` at layer 1, and the
odd-leaf-count boundary clause. -/
theorem C4_sibling_rule_witness :
    ((t2.proof_lemma 2)[1]? = Option.some (t2.padding_node 0) ∧
      (t2.proof_path 2)[0]? = Option.some true) ∧
    ((t2.proof_lemma 2)[2]? = Option.some (t2.node 1 0) ∧
      (t2.proof_path 2)[1]? = Option.some false) ∧
    (t2.proof_lemma (t2.layer_len 0 - 1))[1]?
      = Option.some (t2.padding_node 0) :=
  ⟨((C4_sibling_rule t2 2).2.1 0 (by decide)).1 (by decide) (by decide),
   ((C4_sibling_rule t2 2).2.1 1 (by decide)).2.2 (by decide),
   (C4_sibling_rule t2 2).2.2 (by decide) (by decide)⟩

/-- C5: `gen_range_proof(s, e)` fails with `InvalidRange` exactly when
`e <= s`; otherwise it is `gen_proof(s)` paired with `gen_proof(e-1)`,
propagating the failure of the left proof, then of the right proof. -/
theorem C5_gen_range_proof_dispatch {E : Type} (he : HashElement E)
    (t : MerkleTreeRead E) (s e : Nat) :
    (t.gen_range_proof he s e = .error .InvalidRange ↔ e ≤ s) ∧
    (s < e → ∀ l r, t.gen_proof he s = .ok l →
      t.gen_proof he (e - 1) = .ok r →
      t.gen_range_proof he s e = .ok ⟨l, r⟩) ∧
    (s < e → ∀ err, t.gen_proof he s = .error err →
      t.gen_range_proof he s e = .error err) ∧
    (s < e → ∀ l err, t.gen_proof he s = .ok l →
      t.gen_proof he (e - 1) = .error err →
      t.gen_range_proof he s e = .error err) := by
  refine ⟨⟨fun hg => ?_, fun hle => by
      simp [MerkleTreeRead.gen_range_proof, hle]⟩,
    fun hlt l r h1 h2 => by
      simp [MerkleTreeRead.gen_range_proof, Nat.not_le.mpr hlt, h1, h2],
    fun hlt err h1 => by
      simp [MerkleTreeRead.gen_range_proof, Nat.not_le.mpr hlt, h1],
    fun hlt l err h1 h2 => by
      simp [MerkleTreeRead.gen_range_proof, Nat.not_le.mpr hlt, h1, h2]⟩
  by_cases hle : e ≤ s
  · exact hle
  · exfalso
    rw [MerkleTreeRead.gen_range_proof, if_neg hle] at hg
    cases h1 : t.gen_proof he s with
    | error err =>
      rw [h1] at hg
      simp at hg
      exact gen_proof_ne_invalid_range t he s (by rw [h1, hg])
    | ok l =>
      rw [h1] at hg
      cases h2 : t.gen_proof he (e - 1) with
      | error err =>
        rw [h2] at hg
        simp at hg
        exact gen_proof_ne_invalid_range t he (e - 1) (by rw [h2, hg])
      | ok r =>
        rw [h2] at hg
        simp at hg

/-- C5 witness: a valid range on `t2`, an empty range, and right-proof
failure propagation on `t3`. -/
theorem C5_gen_range_proof_dispatch_witness :
    t2.gen_range_proof he0 0 3
      = .ok ⟨⟨t2.proof_lemma 0, t2.proof_path 0⟩,
             ⟨t2.proof_lemma 2, t2.proof_path 2⟩⟩ ∧
    t2.gen_range_proof he0 2 2 = .error .InvalidRange ∧
    t3.gen_range_proof he0 1 3 = .error .IncompleteData :=
  ⟨(C5_gen_range_proof_dispatch he0 t2 0 3).2.1 (by decide)
      ⟨t2.proof_lemma 0, t2.proof_path 0⟩
      ⟨t2.proof_lemma 2, t2.proof_path 2⟩ (by decide) (by decide),
   (C5_gen_range_proof_dispatch he0 t2 2 2).1.mpr (by decide),
   (C5_gen_range_proof_dispatch he0 t3 1 3).2.2.2 (by decide)
      ⟨t3.proof_lemma 1, t3.proof_path 1⟩ .IncompleteData
      (by decide) (by decide)⟩

end AppendMerkle

example : AppendMerkle.t2.gen_proof AppendMerkle.he0 0 =
    .ok ⟨[Option.some 0, Option.some 1, Option.some 11, Option.some 20],
      [true, true]⟩ := by decide
example : AppendMerkle.t2.gen_proof AppendMerkle.he0 2 =
    .ok ⟨[Option.some 2, Option.some 100, Option.some 10, Option.some 20],
      [true, false]⟩ := by decide
example : AppendMerkle.t2.gen_proof AppendMerkle.he0 3 =
    .error .IndexOutOfBounds := by decide
example : AppendMerkle.t0.gen_proof AppendMerkle.he0 1 =
    .ok ⟨[Option.none, Option.none], []⟩ := by decide
example : AppendMerkle.t0.gen_proof AppendMerkle.he0 0 =
    .error .NotReady := by decide
example : AppendMerkle.t3.gen_proof AppendMerkle.he0 2 =
    .error .IncompleteData := by decide
example : AppendMerkle.t3.gen_proof AppendMerkle.he0 0 =
    .ok ⟨[Option.some 0, Option.some 1, Option.some 11, Option.some 20],
      [true, true]⟩ := by decide
